import Mathlib

/-!
Verification of the rippify core (src/main.rs) against its specification.

The development shallowly embeds the four subsystems of the program:
the comment rewriter (`replace_header_comment`, `make_header_comment`,
`track_add_metadata_tags`), the alternate-format resolver
(`get_track_from_id`), the resolution engine (the track-collection loop
of `main`), and the resource locator (`get_resource_from_line`,
`is_resource`).  Rust strings and byte buffers are modelled as `List Nat`
(their UTF-8 bytes) except in the locator, where lines are `List Char`.
External collaborators (the ogg packet reader/writer, lewton's comment
parser, librespot's catalog and base-62 id decoding) are modelled from
the specification where noted.
-/

namespace Rippify

/-! ## Comment rewriter: data model -/

/-- Modelled from the spec: an `OggPacket` as delivered by the external ogg
crate's `PacketReader` — payload bytes, stream serial, the two boundary
flags, and the absolute granule position of its page (spec §3). -/
structure OggPacket where
  data : List Nat
  streamSerial : Nat
  lastInPage : Bool
  lastInStream : Bool
  absgp : Nat
  deriving DecidableEq, Repr

/-- The `ogg::PacketWriteEndInfo` boundary marker passed to `write_packet`. -/
inductive PacketWriteEndInfo where
  | NormalPacket
  | EndPage
  | EndStream
  deriving DecidableEq, Repr

/-- One call to `ogg::PacketWriter::write_packet` in `replace_header_comment`:
the payload, stream serial, boundary marker and granule position handed to
the external writer.  The emitted bitstream is determined by this sequence. -/
structure WrittenPacket where
  data : List Nat
  serial : Nat
  inf : PacketWriteEndInfo
  absgp : Nat
  deriving DecidableEq, Repr

/-- The lewton `CommentHeader` struct: vendor string and ordered
(key, value) comment list, all as UTF-8 byte lists. -/
structure CommentHeader where
  vendor : List Nat
  comment_list : List (List Nat × List Nat)
  deriving DecidableEq, Repr

/-- Error kinds of the rewriter (`TagsWriteErrorKind` in src/main.rs). -/
inductive TagsWriteErrorKind where
  | Read
  | Write
  | Header
  deriving DecidableEq, Repr

/-! ## `make_header_comment` -/

/-- Little-endian byte encoding of a 32-bit value (`u32::to_le_bytes`). -/
def u32LE (n : Nat) : List Nat :=
  [n % 256, n / 256 % 256, n / 65536 % 256, n / 16777216 % 256]

/-- `TryInto::<u32>::try_into(len).ok()?.to_le_bytes()`: fails when the
length does not fit in 32 bits. -/
def u32TryFrom (n : Nat) : Option (List Nat) :=
  if n < 4294967296 then some (u32LE n) else none

/-- The fixed signature prefix `0x03` followed by the bytes of "vorbis". -/
def vorbisSig : List Nat := [0x03, 0x76, 0x6F, 0x72, 0x62, 0x69, 0x73]

/-- One iteration of the comment loop in `make_header_comment`: the bytes of
`"key=value"` (0x3D is `=`), length-prefixed, or `none` when the length
does not fit in a `u32`. -/
def commentChunk (c : List Nat × List Nat) : Option (List Nat) :=
  match u32TryFrom (c.1 ++ 0x3D :: c.2).length with
  | some len => some (len ++ (c.1 ++ 0x3D :: c.2))
  | none => none

/-- The comment loop of `make_header_comment`, concatenating the encoded
entries in order and propagating the first length overflow. -/
def commentChunks : List (List Nat × List Nat) → Option (List Nat)
  | [] => some []
  | c :: rest =>
    match commentChunk c, commentChunks rest with
    | some chunk, some out => some (chunk ++ out)
    | _, _ => none

/-- `make_header_comment` from src/main.rs: signature prefix, length-prefixed
vendor string, little-endian entry count, the length-prefixed `"key=value"`
entries in order, and the trailing framing byte 0x01. -/
def make_header_comment (header : CommentHeader) : Option (List Nat) := do
  let vendor_len ← u32TryFrom header.vendor.length
  let comments_len ← u32TryFrom header.comment_list.length
  let chunks ← commentChunks header.comment_list
  pure (vorbisSig ++ vendor_len ++ header.vendor ++ comments_len ++ chunks ++ [0x01])

/-! ## `replace_header_comment` -/

/-- The boundary marker chosen in `replace_header_comment`:
`last_in_stream`, then `last_in_page`, then a normal packet. -/
def packetEndInfo (p : OggPacket) : PacketWriteEndInfo :=
  if p.lastInStream then PacketWriteEndInfo.EndStream
  else if p.lastInPage then PacketWriteEndInfo.EndPage
  else PacketWriteEndInfo.NormalPacket

/-- A packet re-emitted unchanged: original payload, serial, boundary marker
and granule position. -/
def writePass (p : OggPacket) : WrittenPacket :=
  ⟨p.data, p.streamSerial, packetEndInfo p, p.absgp⟩

/-- A packet re-emitted with its payload replaced by `d`; framing fields kept. -/
def writeRepl (d : List Nat) (p : OggPacket) : WrittenPacket :=
  ⟨d, p.streamSerial, packetEndInfo p, p.absgp⟩

/-- The packet loop of `replace_header_comment`.  `isComment` stands for the
external `lewton::header::read_header_comment` succeeding on a payload;
`overwrote` is the `overwrote_header` flag.  Before the flag is set, the
first payload accepted by `isComment` is replaced by the freshly serialized
header (error `Header` when `make_header_comment` fails); every packet is
re-emitted with its original serial, granule position and boundary marker. -/
def rhcLoop (isComment : List Nat → Bool) (hdr : CommentHeader) :
    Bool → List OggPacket → Except TagsWriteErrorKind (List WrittenPacket)
  | _, [] => Except.ok []
  | overwrote, p :: rest =>
    if !overwrote && isComment p.data then
      match make_header_comment hdr with
      | none => Except.error TagsWriteErrorKind.Header
      | some d =>
        match rhcLoop isComment hdr true rest with
        | Except.error e => Except.error e
        | Except.ok out => Except.ok (writeRepl d p :: out)
    else
      match rhcLoop isComment hdr overwrote rest with
      | Except.error e => Except.error e
      | Except.ok out => Except.ok (writePass p :: out)

/-- `replace_header_comment` from src/main.rs, over the packet sequence
delivered by the external reader: the loop starts with
`overwrote_header = false` and the result is the sequence of packets handed
to the writer (or the first error). -/
def replace_header_comment (isComment : List Nat → Bool)
    (packets : List OggPacket) (hdr : CommentHeader) :
    Except TagsWriteErrorKind (List WrittenPacket) :=
  rhcLoop isComment hdr false packets

/-! ## Track metadata and the alternate-format resolver -/

/-- The `AudioFileFormat` tags relevant to `get_track_from_id`; `OTHER n`
stands for any of the remaining librespot formats. -/
inductive AudioFileFormat where
  | OGG_VORBIS_320
  | OGG_VORBIS_160
  | OGG_VORBIS_96
  | OTHER (n : Nat)
  deriving DecidableEq, Repr

/-- A librespot `Track` record as consumed by the core: catalog id, name,
album name, ordered artist names, the `files` encoding map (association
list standing for the `HashMap<AudioFileFormat, FileId>`), and the ordered
`alternatives` id list.  Ids are opaque; they are modelled as `Nat`. -/
structure Track where
  id : Nat
  name : List Nat
  album : List Nat
  artists : List (List Nat)
  files : List (AudioFileFormat × Nat)
  alternatives : List Nat
  deriving DecidableEq, Repr

/-- `track.files.get_key_value(fmt)`: the stored (key, value) pair. -/
def filesGet (t : Track) (fmt : AudioFileFormat) : Option (AudioFileFormat × Nat) :=
  t.files.find? (fun kv => kv.1 == fmt)

/-- The format choice in `get_track_from_id`:
`None.or(get 320).or(get 160).or(get 96)`. -/
def pick_format (t : Track) : Option (AudioFileFormat × Nat) :=
  ((Option.none.or (filesGet t AudioFileFormat.OGG_VORBIS_320)).or
      (filesGet t AudioFileFormat.OGG_VORBIS_160)).or
    (filesGet t AudioFileFormat.OGG_VORBIS_96)

/-- The fixed encoding preference order tested by `get_track_from_id`. -/
def priorityOrder : List AudioFileFormat :=
  [AudioFileFormat.OGG_VORBIS_320, AudioFileFormat.OGG_VORBIS_160,
    AudioFileFormat.OGG_VORBIS_96]

/-- First entry of the priority order present in the encoding map — the
specification's wording of the selection policy. -/
def firstPriorityHit (t : Track) : Option (AudioFileFormat × Nat) :=
  (priorityOrder.filterMap (filesGet t)).head?

/-- Errors of `lsm::Track::get` propagation (`?`) and the final
`Error::not_found("cannot find a suitable track")`. -/
inductive LsError where
  | Catalog
  | NotFound
  deriving DecidableEq, Repr

/-- The queue loop of `get_track_from_id`, with explicit fuel: `none` means
the given number of iterations did not finish the loop.  A popped id is
fetched from the catalog (`Track::get`, error propagated); the first record
with a priority encoding is returned; otherwise its `alternatives` are
pushed at the back of the queue — the source has no visited set. -/
def get_track_from_id (cat : Nat → Option Track) :
    List Nat → Nat → Option (Except LsError (Track × Nat))
  | _, 0 => none
  | [], _ + 1 => some (Except.error LsError.NotFound)
  | id :: rest, fuel + 1 =>
    match cat id with
    | none => some (Except.error LsError.Catalog)
    | some track =>
      match pick_format track with
      | some fmt => some (Except.ok (track, fmt.2))
      | none => get_track_from_id cat (rest ++ track.alternatives) fuel

/-! ## `track_add_metadata_tags` -/

/-- UTF-8 bytes of "Ogg". -/
def oggVendor : List Nat := [0x4F, 0x67, 0x67]

/-- UTF-8 bytes of "title". -/
def titleKey : List Nat := [0x74, 0x69, 0x74, 0x6C, 0x65]

/-- UTF-8 bytes of "album". -/
def albumKey : List Nat := [0x61, 0x6C, 0x62, 0x75, 0x6D]

/-- UTF-8 bytes of "artist". -/
def artistKey : List Nat := [0x61, 0x72, 0x74, 0x69, 0x73, 0x74]

/-- The `CommentHeader` built by `track_add_metadata_tags`: vendor "Ogg",
then the two pushes and the artist extend, mirrored as list appends. -/
def track_metadata_header (track : Track) : CommentHeader :=
  let metadata : CommentHeader := ⟨oggVendor, []⟩
  let metadata : CommentHeader :=
    { metadata with comment_list := metadata.comment_list ++ [(titleKey, track.name)] }
  let metadata : CommentHeader :=
    { metadata with comment_list := metadata.comment_list ++ [(albumKey, track.album)] }
  { metadata with
    comment_list :=
      metadata.comment_list ++ track.artists.map (fun artist => (artistKey, artist)) }

/-- `track_add_metadata_tags` from src/main.rs: build the metadata header for
the track and hand the buffer to `replace_header_comment`. -/
def track_add_metadata_tags (isComment : List Nat → Bool)
    (packets : List OggPacket) (track : Track) :
    Except TagsWriteErrorKind (List WrittenPacket) :=
  replace_header_comment isComment packets (track_metadata_header track)

/-! ## Resolution engine (the track-collection loop of `main`) -/

/-- `HashSet::insert`: a model of the deduplicating set as a duplicate-free
list; inserting a present id is a no-op. -/
def hashSetInsert (s : List Nat) (x : Nat) : List Nat :=
  if x ∈ s then s else s ++ [x]

/-- `HashSet::extend`: fold of `hashSetInsert` over the contributed ids. -/
def hashSetExtend (s : List Nat) (xs : List Nat) : List Nat :=
  xs.foldl hashSetInsert s

/-- The reference loop of `main` (lines 78–93): each reference's
`get_tracks` result (the `lookup` collaborator) either extends the shared
deduplicating id set or — on a lookup error — records the reference as a
warning and continues with the remaining references. -/
def resolveLoop {α ε : Type} (lookup : α → Except ε (List Nat)) :
    List α → List Nat → List α → List Nat × List α
  | [], acc, warns => (acc, warns)
  | r :: rs, acc, warns =>
    match lookup r with
    | Except.ok ts => resolveLoop lookup rs (hashSetExtend acc ts) warns
    | Except.error _ => resolveLoop lookup rs acc (warns ++ [r])

/-- Full resolution pass: empty set and warning list to start. -/
def resolve_tracks {α ε : Type} (lookup : α → Except ε (List Nat))
    (refs : List α) : List Nat × List α :=
  resolveLoop lookup refs [] []

/-! ## Resource locator -/

/-- `ResourceKind` from src/main.rs. -/
inductive ResourceKind where
  | Track
  | Playlist
  | Album
  | Artist
  deriving DecidableEq, Repr

/-- The lower-case kind name interpolated into both regexes. -/
def kindName : ResourceKind → List Char
  | ResourceKind.Track => ['t', 'r', 'a', 'c', 'k']
  | ResourceKind.Playlist => ['p', 'l', 'a', 'y', 'l', 'i', 's', 't']
  | ResourceKind.Album => ['a', 'l', 'b', 'u', 'm']
  | ResourceKind.Artist => ['a', 'r', 't', 'i', 's', 't']

/-- The literal `http://` of the optional scheme group. -/
def httpPre : List Char := ['h', 't', 't', 'p', ':', '/', '/']

/-- The literal `https://` of the optional scheme group. -/
def httpsPre : List Char := ['h', 't', 't', 'p', 's', ':', '/', '/']

/-- The literal `open.spotify.com/` of the long-form grammar. -/
def urlHost : List Char :=
  ['o', 'p', 'e', 'n', '.', 's', 'p', 'o', 't', 'i', 'f', 'y', '.', 'c', 'o', 'm', '/']

/-- The literal `spotify:` of the short native-URI grammar. -/
def uriPre : List Char := ['s', 'p', 'o', 't', 'i', 'f', 'y', ':']

/-- Everything of the long-form grammar between the optional scheme and the
id capture group: `open.spotify.com/<kind>/`. -/
def urlCore (k : ResourceKind) : List Char := urlHost ++ kindName k ++ ['/']

/-- Everything of the short grammar before the id capture group:
`spotify:<kind>:`. -/
def uriCore (k : ResourceKind) : List Char := uriPre ++ kindName k ++ [':']

/-- Anchored literal matching: consume `pre` from the front of the line and
return the remainder, or fail on the first mismatching character. -/
def litMatch : List Char → List Char → Option (List Char)
  | [], l => some l
  | _ :: _, [] => none
  | c :: cs, x :: xs => if x = c then litMatch cs xs else none

/-- The capture group `([[:alnum:]]{22})$`: the whole remainder must be
exactly 22 ASCII alphanumeric characters. -/
def idOk (l : List Char) : Bool := l.length == 22 && l.all Char.isAlphanum

/-- End-anchored id capture: succeeds with the id itself. -/
def matchTail (l : List Char) : Option (List Char) :=
  if idOk l then some l else none

/-- `ResourceKind::to_url_regex` applied to a line:
`^(http(s)?://)?open\.spotify\.com/<kind>/([[:alnum:]]{22})$`, returning the
id capture.  The three scheme alternatives are mutually exclusive literals,
so they are tried in turn. -/
def url_capture (k : ResourceKind) (line : List Char) : Option (List Char) :=
  match litMatch httpsPre line with
  | some rest => (litMatch (urlCore k) rest).bind matchTail
  | none =>
    match litMatch httpPre line with
    | some rest => (litMatch (urlCore k) rest).bind matchTail
    | none => (litMatch (urlCore k) line).bind matchTail

/-- `ResourceKind::to_uri_regex` applied to a line:
`^spotify:<kind>:([[:alnum:]]{22})$`, returning the id capture. -/
def uri_capture (k : ResourceKind) (line : List Char) : Option (List Char) :=
  (litMatch (uriCore k) line).bind matchTail

/-- The capture step of `is_resource`: URL regex first, then URI regex
(`captures(line).or(...)`); the returned string is the last capture group,
which is always the id. -/
def is_resource_capture (line : List Char) (k : ResourceKind) : Option (List Char) :=
  (url_capture k line).or (uri_capture k line)

/-- Modelled from the spec: one base-62 digit of librespot's
`SpotifyId::from_base62` (not under src/) — `0`–`9`, then `a`–`z`, then
`A`–`Z`. -/
def base62Digit (c : Char) : Option Nat :=
  if c.isDigit then some (c.toNat - 48)
  else if c.isLower then some (c.toNat - 97 + 10)
  else if c.isUpper then some (c.toNat - 65 + 36)
  else none

/-- Modelled from the spec: librespot's `SpotifyId::from_base62` (not under
src/) — base-62 accumulation over the characters, failing on the first
character outside the alphabet; the id itself is opaque (spec §3). -/
def from_base62 (s : List Char) : Option Nat :=
  s.foldl (fun acc c => acc.bind fun v => (base62Digit c).map fun d => v * 62 + d)
    (some 0)

/-- `is_resource` from src/main.rs: on a regex match, decode the captured id
(`from_base62`); the inner `none` marks the decode `unwrap` panicking. -/
def is_resource (line : List Char) (k : ResourceKind) : Option (Option Nat) :=
  (is_resource_capture line k).map from_base62

/-- `InputResource`: the matched kind together with the captured id string
(whose decoded form `is_resource` would carry). -/
structure InputResource where
  kind : ResourceKind
  id : List Char
  deriving DecidableEq, Repr

/-- `get_resource_from_line` from src/main.rs: try the kinds in the fixed
order Track, Album, Playlist, Artist and return the first match; otherwise
fail with the original line. -/
def get_resource_from_line (line : List Char) : Except (List Char) InputResource :=
  match is_resource_capture line ResourceKind.Track with
  | some id => Except.ok ⟨ResourceKind.Track, id⟩
  | none =>
    match is_resource_capture line ResourceKind.Album with
    | some id => Except.ok ⟨ResourceKind.Album, id⟩
    | none =>
      match is_resource_capture line ResourceKind.Playlist with
      | some id => Except.ok ⟨ResourceKind.Playlist, id⟩
      | none =>
        match is_resource_capture line ResourceKind.Artist with
        | some id => Except.ok ⟨ResourceKind.Artist, id⟩
        | none => Except.error line

/-- Position of a kind in the fixed testing order of
`get_resource_from_line`. -/
def kindOrder : ResourceKind → Nat
  | ResourceKind.Track => 0
  | ResourceKind.Album => 1
  | ResourceKind.Playlist => 2
  | ResourceKind.Artist => 3

/-- The specification's grammar for kind `k` capturing `id`: the line is,
end to end, one of the four literal shapes followed by a 22-character
ASCII-alphanumeric id. -/
def grammarMatch (k : ResourceKind) (line : List Char) (id : List Char) : Prop :=
  idOk id = true ∧
    (line = urlCore k ++ id ∨ line = httpPre ++ urlCore k ++ id ∨
      line = httpsPre ++ urlCore k ++ id ∨ line = uriCore k ++ id)

instance (k : ResourceKind) (line id : List Char) : Decidable (grammarMatch k line id) := by
  unfold grammarMatch
  infer_instance

/-! ## Specification-side definitions -/

/-- The specification's byte layout for the replacement comment payload:
the signature prefix 0x03 followed by "vorbis", a little-endian 32-bit
vendor length and the vendor bytes, a little-endian 32-bit entry count,
for each entry in order a little-endian 32-bit length followed by the
bytes of `"key=value"`, and a single trailing byte 0x01. -/
def commentPayloadSpec (h : CommentHeader) : List Nat :=
  [0x03, 0x76, 0x6F, 0x72, 0x62, 0x69, 0x73] ++
    u32LE h.vendor.length ++ h.vendor ++ u32LE h.comment_list.length ++
    (h.comment_list.map fun c =>
      u32LE (c.1 ++ 0x3D :: c.2).length ++ (c.1 ++ 0x3D :: c.2)).flatten ++
    [0x01]

/-! ## Concrete fixtures for witnesses and counterexamples -/

/-- Header fixture with vendor "Ogg" and a repeated key: entries
`a=b` and `a=c`. -/
def c4Header : CommentHeader :=
  ⟨[0x4F, 0x67, 0x67], [([0x61], [0x62]), ([0x61], [0x63])]⟩

/-- Cyclic alternatives catalog: tracks 0 and 1 offer no encodings and list
each other as their only alternative. -/
def cycCat : Nat → Option Track
  | 0 => some ⟨0, [], [], [], [], [1]⟩
  | 1 => some ⟨1, [], [], [], [], [0]⟩
  | _ => none

/-- Catalog fixture for the fallback scenario: track 0 offers no priority
encoding and lists track 1 as its first alternative; track 1 offers
OGG_VORBIS_160 as file 9. -/
def c5Cat : Nat → Option Track
  | 0 => some ⟨0, [], [], [], [], [1]⟩
  | 1 => some ⟨1, [], [], [], [(AudioFileFormat.OGG_VORBIS_160, 9)], []⟩
  | _ => none

/-- The record of track 1 in `c5Cat`. -/
def c5Alt : Track := ⟨1, [], [], [], [(AudioFileFormat.OGG_VORBIS_160, 9)], []⟩

/-- Lookup fixture for the resolution engine: reference 0 fails, every
other reference n contributes tracks n and n + 10. -/
def c8Lookup : Nat → Except Unit (List Nat)
  | 0 => Except.error ()
  | n => Except.ok [n, n + 10]

/-- A 22-character alphanumeric id fixture. -/
def c10Id : List Char := List.replicate 22 'a'

/-- The line `spotify:track:` followed by the id fixture. -/
def c10Line : List Char := uriCore ResourceKind.Track ++ c10Id

/-- Comment recognizer fixture: accepts exactly the payload `[9]`. -/
def isNine (d : List Nat) : Bool := d == [9]

/-- A three-packet container whose middle packet is the comment packet. -/
def c3Packets : List OggPacket :=
  [⟨[4], 1, false, false, 0⟩, ⟨[9], 1, true, false, 5⟩, ⟨[6], 1, false, true, 8⟩]

/-- The rewritten form of `c3Packets` under the empty comment header. -/
def c3Out : List WrittenPacket :=
  [⟨[4], 1, PacketWriteEndInfo.NormalPacket, 0⟩,
    ⟨[3, 118, 111, 114, 98, 105, 115, 0, 0, 0, 0, 0, 0, 0, 0, 1], 1,
      PacketWriteEndInfo.EndPage, 5⟩,
    ⟨[6], 1, PacketWriteEndInfo.EndStream, 8⟩]

/-! ## Rewriter lemmas -/

/-- Once `overwrote_header` is set, every remaining packet is passed through
unchanged and the loop cannot fail. -/
theorem rhcLoop_true (isC : List Nat → Bool) (hdr : CommentHeader)
    (ps : List OggPacket) :
    rhcLoop isC hdr true ps = Except.ok (ps.map writePass) := by
  induction ps with
  | nil => rfl
  | cons p rest ih => simp [rhcLoop, ih]

/-- Structure of a successful run that starts before any replacement: either
no payload was accepted as a comment header and every packet is passed
through, or the first accepted packet (index `i`) is re-emitted with the
serialized header as payload and everything else is passed through. -/
theorem rhcLoop_false_ok (isC : List Nat → Bool) (hdr : CommentHeader)
    (ps : List OggPacket) :
    ∀ out, rhcLoop isC hdr false ps = Except.ok out →
      out = ps.map writePass ∨
        ∃ i, ∃ hi : i < ps.length, ∃ d,
          make_header_comment hdr = some d ∧
          isC ps[i].data = true ∧
          (∀ j, ∀ hj : j < ps.length, j < i → isC ps[j].data = false) ∧
          out = (ps.map writePass).set i (writeRepl d ps[i]) := by
  induction ps with
  | nil =>
    intro out h
    left
    simp only [rhcLoop, Except.ok.injEq] at h
    simp [← h]
  | cons p rest ih =>
    intro out h
    by_cases hc : isC p.data = true
    · cases hmk : make_header_comment hdr with
      | none => simp [rhcLoop, hc, hmk] at h
      | some d =>
        simp only [rhcLoop, hc, hmk, Bool.not_false, Bool.true_and, if_true,
          rhcLoop_true, Except.ok.injEq] at h
        right
        refine ⟨0, by simp, d, rfl, by simpa using hc, ?_, ?_⟩
        · intro j hj hlt
          exact absurd hlt (Nat.not_lt_zero j)
        · simp [← h, List.map_cons, List.set_cons_zero]
    · have hc0 : isC p.data = false := by
        cases hval : isC p.data with
        | false => rfl
        | true => exact absurd hval hc
      cases hr : rhcLoop isC hdr false rest with
      | error e => simp [rhcLoop, hc0, hr] at h
      | ok outRest =>
        simp [rhcLoop, hc0, hr] at h
        rcases ih outRest hr with hpass | ⟨i, hi, d, hmk, hci, hfirst, hout⟩
        · left
          simp [← h, hpass]
        · right
          refine ⟨i + 1, by simpa using Nat.succ_lt_succ hi, d, hmk,
            by simpa using hci, ?_, ?_⟩
          · intro j hj hlt
            cases j with
            | zero => simpa using hc0
            | succ j0 =>
              have hj0 : j0 < rest.length := by
                simpa using Nat.lt_of_succ_lt_succ hj
              have := hfirst j0 hj0 (Nat.lt_of_succ_lt_succ hlt)
              simpa using this
          · simp only [← h, hout, List.map_cons, List.set_cons_succ,
              List.getElem_cons_succ]

/-! ## Claim C1 -/

/-- C1 counterexample: a parsable container with a single packet whose
payload no comment-header parser accepts.  The claim requires the rewrite to
fail with `InvalidCommentHeader`; the code instead succeeds, passing the
packet through unchanged — `replace_header_comment` has no such error path. -/
theorem claim1_counterexample_missing_header_succeeds :
    replace_header_comment (fun _ => false) [⟨[0], 7, false, true, 3⟩] ⟨[], []⟩ =
      Except.ok [⟨[0], 7, PacketWriteEndInfo.EndStream, 3⟩] := rfl

/-- C1 (amended): when no packet's payload is interpretable as a comment
header, `replace_header_comment` succeeds and returns the container with
every packet passed through unchanged; no error is surfaced. -/
theorem claim1_no_comment_header_passthrough (isC : List Nat → Bool)
    (hdr : CommentHeader) (packets : List OggPacket)
    (h : ∀ p ∈ packets, isC p.data = false) :
    replace_header_comment isC packets hdr = Except.ok (packets.map writePass) := by
  unfold replace_header_comment
  induction packets with
  | nil => rfl
  | cons p rest ih =>
    have hp : isC p.data = false := h p (List.mem_cons_self p rest)
    have hrest : ∀ q ∈ rest, isC q.data = false :=
      fun q hq => h q (List.mem_cons_of_mem p hq)
    simp [rhcLoop, hp, ih hrest]

/-- C1 witness: the amended theorem applied to a concrete two-packet
container with no comment packet. -/
theorem claim1_no_comment_header_passthrough_witness :
    replace_header_comment (fun _ => false)
      [⟨[1, 2], 5, true, false, 11⟩, ⟨[3], 5, false, false, 12⟩] ⟨oggVendor, []⟩ =
      Except.ok [⟨[1, 2], 5, PacketWriteEndInfo.EndPage, 11⟩,
        ⟨[3], 5, PacketWriteEndInfo.NormalPacket, 12⟩] :=
  claim1_no_comment_header_passthrough (fun _ => false) ⟨oggVendor, []⟩ _
    (fun _ _ => rfl)

/-! ## Claim C3 -/

/-- C3: a successful rewrite emits exactly as many packets as were read, in
the original order; every packet keeps its original stream serial, absolute
granule position, and the boundary marker chosen by the precedence
end-of-logical-stream, end-of-page, none; and every packet other than the
first comment packet — the single replaced one — keeps a byte-identical
payload. -/
theorem claim3_rewrite_preserves_framing (isC : List Nat → Bool)
    (hdr : CommentHeader) (packets : List OggPacket) (out : List WrittenPacket)
    (h : replace_header_comment isC packets hdr = Except.ok out) :
    out.length = packets.length ∧
    ∀ i, ∀ hi : i < packets.length, ∀ ho : i < out.length,
      out[i].serial = packets[i].streamSerial ∧
      out[i].absgp = packets[i].absgp ∧
      out[i].inf = packetEndInfo packets[i] ∧
      ((isC packets[i].data = false ∨
          ∃ j, ∃ hj : j < packets.length, j < i ∧ isC packets[j].data = true) →
        out[i].data = packets[i].data) := by
  rcases rhcLoop_false_ok isC hdr packets out h with hpass | ⟨k, hk, d, _, hck, hfirst, hout⟩
  · subst hpass
    refine ⟨List.length_map packets writePass, ?_⟩
    intro i hi ho
    simp [List.getElem_map, writePass]
  · subst hout
    refine ⟨by simp, ?_⟩
    intro i hi ho
    by_cases hik : i = k
    · subst hik
      have hset : ((packets.map writePass).set i (writeRepl d packets[i]))[i] =
          writeRepl d packets[i] := List.getElem_set_self ho
      refine ⟨by simp [hset, writeRepl], by simp [hset, writeRepl],
        by simp [hset, writeRepl], ?_⟩
      intro hnot
      rcases hnot with hfalse | ⟨j, hj, hlt, htrue⟩
      · exact absurd hck (by simp [hfalse])
      · exact absurd htrue (by simp [hfirst j hj hlt])
    · have hne : k ≠ i := fun hek => hik hek.symm
      refine ⟨?_, ?_, ?_, fun _ => ?_⟩ <;>
        simp [List.getElem_set_ne hne, List.getElem_map, writePass]

/-- C3 witness: a concrete three-packet container whose middle packet is the
comment packet. -/
theorem claim3_rewrite_preserves_framing_witness :
    (replace_header_comment isNine c3Packets ⟨[], []⟩ = Except.ok c3Out) ∧
      c3Out.length = c3Packets.length :=
  ⟨rfl, (claim3_rewrite_preserves_framing isNine ⟨[], []⟩ c3Packets c3Out rfl).1⟩

/-! ## Claim C4 -/

/-- The comment loop succeeds on every entry whose `"key=value"` bytes fit a
32-bit length, producing the length-prefixed entries in order. -/
theorem commentChunks_ok (l : List (List Nat × List Nat))
    (h : ∀ c ∈ l, (c.1 ++ 0x3D :: c.2).length < 4294967296) :
    commentChunks l =
      some ((l.map fun c => u32LE (c.1 ++ 0x3D :: c.2).length ++ (c.1 ++ 0x3D :: c.2)).flatten) := by
  induction l with
  | nil => rfl
  | cons c rest ih =>
    have hc : c.1.length + (c.2.length + 1) < 4294967296 := by
      simpa using h c (List.mem_cons_self c rest)
    have hrest := fun q hq => h q (List.mem_cons_of_mem c hq)
    simp [commentChunks, commentChunk, u32TryFrom, hc, ih hrest]

/-- C4: whenever the vendor string, the entry count and each `"key=value"`
entry fit 32-bit lengths, the serialized payload is exactly the
specification's layout, with entry order preserved and repeated keys kept. -/
theorem claim4_header_layout (h : CommentHeader)
    (hv : h.vendor.length < 4294967296)
    (hc : h.comment_list.length < 4294967296)
    (hcs : ∀ c ∈ h.comment_list, (c.1 ++ 0x3D :: c.2).length < 4294967296) :
    make_header_comment h = some (commentPayloadSpec h) := by
  simp [make_header_comment, u32TryFrom, hv, hc, commentChunks_ok h.comment_list hcs,
    commentPayloadSpec, vorbisSig]

/-- C4 witness: the layout theorem applied to the fixture header with a
repeated key. -/
theorem claim4_header_layout_witness :
    make_header_comment c4Header = some (commentPayloadSpec c4Header) :=
  claim4_header_layout c4Header (by decide) (by decide) (by decide)

/-! ## Claim C9 -/

/-- C9: the comment block handed to the rewriter has vendor "Ogg" and
exactly the entries (title, track name), (album, album name), then one
(artist, name) entry per artist in the record's order — repeated "artist"
keys for multi-artist tracks, full ordered artist sequence preserved — and
`track_add_metadata_tags` passes exactly this block to
`replace_header_comment`. -/
theorem claim9_metadata_block (t : Track) :
    (track_metadata_header t).vendor = oggVendor ∧
    (track_metadata_header t).comment_list =
      (titleKey, t.name) :: (albumKey, t.album) ::
        t.artists.map (fun artist => (artistKey, artist)) ∧
    (track_metadata_header t).comment_list.filterMap
        (fun c => if c.1 = artistKey then some c.2 else none) = t.artists ∧
    ∀ isC packets, track_add_metadata_tags isC packets t =
      replace_header_comment isC packets (track_metadata_header t) := by
  refine ⟨rfl, by simp [track_metadata_header], ?_, fun _ _ => rfl⟩
  have hkey : (titleKey = artistKey) = False := by simp [titleKey, artistKey]
  have hkey2 : (albumKey = artistKey) = False := by simp [albumKey, artistKey]
  have hart : ∀ l : List (List Nat),
      (l.map fun artist => (artistKey, artist)).filterMap
        (fun c => if c.1 = artistKey then some c.2 else none) = l := by
    intro l
    induction l with
    | nil => rfl
    | cons a rest ih => simp [ih]
  simp [track_metadata_header, hkey, hkey2, hart]

/-! ## Claim C2 -/

/-- C2 (code bug): on the cyclic two-track catalog, the queue loop of
`get_track_from_id` exhausts any amount of fuel — ids 0 and 1 are
re-enqueued forever, so the selection never terminates. -/
theorem claim2_cycle_never_terminates :
    ∀ fuel, get_track_from_id cycCat [0] fuel = none ∧
      get_track_from_id cycCat [1] fuel = none := by
  intro fuel
  induction fuel with
  | zero => exact ⟨rfl, rfl⟩
  | succ f ih =>
    refine ⟨?_, ?_⟩
    · have hstep : get_track_from_id cycCat [0] (f + 1) =
          get_track_from_id cycCat [1] f := by
        simp [get_track_from_id, cycCat, pick_format, filesGet]
      rw [hstep]
      exact ih.2
    · have hstep : get_track_from_id cycCat [1] (f + 1) =
          get_track_from_id cycCat [0] f := by
        simp [get_track_from_id, cycCat, pick_format, filesGet]
      rw [hstep]
      exact ih.1

/-! ## Claim C5 -/

/-- C5: the per-record choice tests the encoding map against the fixed
priority order OGG_VORBIS_320, 160, 96, returning the first tag present;
and when the requested record has no priority encoding but its first
alternative does, the returned record and file id are the alternative's,
observably different from the requested id. -/
theorem claim5_first_alternative_substitution (cat : Nat → Option Track)
    (a b : Nat) (bs : List Nat) (ra rb : Track) (fmt : AudioFileFormat × Nat)
    (hca : cat a = some ra) (hpa : pick_format ra = none)
    (halt : ra.alternatives = b :: bs)
    (hcb : cat b = some rb) (hpb : pick_format rb = some fmt)
    (hid : rb.id = b) (hne : b ≠ a) :
    (∀ t, pick_format t = firstPriorityHit t) ∧
    (∀ fuel, get_track_from_id cat [a] (fuel + 2) = some (Except.ok (rb, fmt.2))) ∧
    rb.id ≠ a := by
  refine ⟨?_, ?_, by simpa [hid] using hne⟩
  · intro t
    cases h320 : filesGet t AudioFileFormat.OGG_VORBIS_320 <;>
      cases h160 : filesGet t AudioFileFormat.OGG_VORBIS_160 <;>
        cases h96 : filesGet t AudioFileFormat.OGG_VORBIS_96 <;>
          simp [pick_format, firstPriorityHit, priorityOrder, h320, h160, h96]
  · intro fuel
    have hstep : get_track_from_id cat [a] (fuel + 2) =
        get_track_from_id cat (b :: bs) (fuel + 1) := by
      simp [get_track_from_id, hca, hpa, halt]
    rw [hstep]
    simp [get_track_from_id, hcb, hpb]

/-- C5 witness: the fallback theorem applied to the fixture catalog, at the
smallest sufficient fuel. -/
theorem claim5_first_alternative_substitution_witness :
    get_track_from_id c5Cat [0] 2 = some (Except.ok (c5Alt, 9)) :=
  (claim5_first_alternative_substitution c5Cat 0 1 [] ⟨0, [], [], [], [], [1]⟩
      c5Alt (AudioFileFormat.OGG_VORBIS_160, 9) rfl rfl rfl rfl rfl rfl
      (by decide)).2.1 0

/-! ## Resolution engine lemmas -/

/-- Inserting into the modelled hash set keeps it duplicate-free. -/
theorem hashSetInsert_nodup (s : List Nat) (x : Nat) (h : s.Nodup) :
    (hashSetInsert s x).Nodup := by
  unfold hashSetInsert
  by_cases hx : x ∈ s
  · simpa [hx]
  · simp [hx, List.nodup_append, h]

/-- Membership after one insertion. -/
theorem mem_hashSetInsert (s : List Nat) (x y : Nat) :
    y ∈ hashSetInsert s x ↔ y ∈ s ∨ y = x := by
  unfold hashSetInsert
  by_cases hx : x ∈ s
  · simp only [hx, if_true]
    constructor
    · exact Or.inl
    · rintro (hy | rfl)
      · exact hy
      · exact hx
  · simp [hx]

/-- Extending the modelled hash set keeps it duplicate-free. -/
theorem hashSetExtend_nodup (xs : List Nat) :
    ∀ s, s.Nodup → (hashSetExtend s xs).Nodup := by
  induction xs with
  | nil => intro s h; exact h
  | cons x rest ih => intro s h; exact ih _ (hashSetInsert_nodup s x h)

/-- Membership after an extension. -/
theorem mem_hashSetExtend (xs : List Nat) :
    ∀ s y, y ∈ hashSetExtend s xs ↔ y ∈ s ∨ y ∈ xs := by
  induction xs with
  | nil => intro s y; simp [hashSetExtend]
  | cons x rest ih =>
    intro s y
    have hstep : hashSetExtend s (x :: rest) = hashSetExtend (hashSetInsert s x) rest := rfl
    rw [hstep, ih, mem_hashSetInsert]
    simp only [List.mem_cons]
    tauto

/-- The id set produced by the reference loop is duplicate-free whenever the
accumulator is. -/
theorem resolveLoop_fst_nodup {α ε : Type} (lookup : α → Except ε (List Nat))
    (rs : List α) :
    ∀ acc warns, acc.Nodup → ((resolveLoop lookup rs acc warns).1).Nodup := by
  induction rs with
  | nil => intro acc warns h; exact h
  | cons r rest ih =>
    intro acc warns h
    cases hl : lookup r with
    | ok ts =>
      simp only [resolveLoop, hl]
      exact ih _ _ (hashSetExtend_nodup ts acc h)
    | error e =>
      simp only [resolveLoop, hl]
      exact ih _ _ h

/-- Membership in the id set produced by the reference loop: an id is there
exactly when it was in the accumulator or is contributed by a reference
whose lookup succeeded. -/
theorem resolveLoop_fst_mem {α ε : Type} (lookup : α → Except ε (List Nat))
    (rs : List α) :
    ∀ acc warns y, y ∈ (resolveLoop lookup rs acc warns).1 ↔
      y ∈ acc ∨ ∃ r ∈ rs, ∃ ts, lookup r = Except.ok ts ∧ y ∈ ts := by
  induction rs with
  | nil => intro acc warns y; simp [resolveLoop]
  | cons r rest ih =>
    intro acc warns y
    cases hl : lookup r with
    | ok ts =>
      simp only [resolveLoop, hl]
      rw [ih, mem_hashSetExtend]
      constructor
      · rintro ((hy | hy) | ⟨q, hq, us, hlu, hyu⟩)
        · exact Or.inl hy
        · exact Or.inr ⟨r, List.mem_cons_self r rest, ts, hl, hy⟩
        · exact Or.inr ⟨q, List.mem_cons_of_mem r hq, us, hlu, hyu⟩
      · rintro (hy | ⟨q, hq, us, hlu, hyu⟩)
        · exact Or.inl (Or.inl hy)
        · rcases List.mem_cons.mp hq with rfl | hq2
          · rw [hl] at hlu
            injection hlu with hts
            subst hts
            exact Or.inl (Or.inr hyu)
          · exact Or.inr ⟨q, hq2, us, hlu, hyu⟩
    | error e =>
      simp only [resolveLoop, hl]
      rw [ih]
      constructor
      · rintro (hy | ⟨q, hq, us, hlu, hyu⟩)
        · exact Or.inl hy
        · exact Or.inr ⟨q, List.mem_cons_of_mem r hq, us, hlu, hyu⟩
      · rintro (hy | ⟨q, hq, us, hlu, hyu⟩)
        · exact Or.inl hy
        · rcases List.mem_cons.mp hq with rfl | hq2
          · rw [hl] at hlu
            exact absurd hlu (by simp)
          · exact Or.inr ⟨q, hq2, us, hlu, hyu⟩

/-- The id set does not depend on the warning accumulator. -/
theorem resolveLoop_fst_warns {α ε : Type} (lookup : α → Except ε (List Nat))
    (rs : List α) :
    ∀ acc w w2, (resolveLoop lookup rs acc w).1 = (resolveLoop lookup rs acc w2).1 := by
  induction rs with
  | nil => intro acc w w2; rfl
  | cons r rest ih =>
    intro acc w w2
    cases hl : lookup r with
    | ok ts =>
      simp only [resolveLoop, hl]
      exact ih _ _ _
    | error e =>
      simp only [resolveLoop, hl]
      exact ih _ _ _

/-- Warnings already recorded are kept by the loop. -/
theorem resolveLoop_warns_mono {α ε : Type} (lookup : α → Except ε (List Nat))
    (rs : List α) :
    ∀ acc w r, r ∈ w → r ∈ (resolveLoop lookup rs acc w).2 := by
  induction rs with
  | nil => intro acc w r h; exact h
  | cons q rest ih =>
    intro acc w r h
    cases hl : lookup q with
    | ok ts =>
      simp only [resolveLoop, hl]
      exact ih _ _ _ h
    | error e =>
      simp only [resolveLoop, hl]
      exact ih _ _ _ (List.mem_append_left _ h)

/-- A reference whose lookup fails contributes nothing to the id set and is
recorded as a warning, from any loop state. -/
theorem resolveLoop_error_skip {α ε : Type} (lookup : α → Except ε (List Nat))
    (r : α) (e : ε) (he : lookup r = Except.error e) (l1 l2 : List α) :
    ∀ acc w,
      (resolveLoop lookup (l1 ++ r :: l2) acc w).1 =
        (resolveLoop lookup (l1 ++ l2) acc w).1 ∧
      r ∈ (resolveLoop lookup (l1 ++ r :: l2) acc w).2 := by
  induction l1 with
  | nil =>
    intro acc w
    constructor
    · simp only [List.nil_append, resolveLoop, he]
      exact resolveLoop_fst_warns lookup l2 acc (w ++ [r]) w
    · simp only [List.nil_append, resolveLoop, he]
      exact resolveLoop_warns_mono lookup l2 acc (w ++ [r]) r (by simp)
  | cons a rest ih =>
    intro acc w
    cases hl : lookup a with
    | ok ts =>
      simpa only [List.cons_append, resolveLoop, hl] using ih _ _
    | error e2 =>
      simpa only [List.cons_append, resolveLoop, hl] using ih _ _

/-! ## Claim C6 -/

/-- C6: the resolved track-id set has no duplicate ids; its members are
exactly the ids contributed by successfully looked-up references; its size
is the number of distinct ids; and repeating all references changes
nothing — resolution is dedup-idempotent. -/
theorem claim6_dedup_idempotent {α ε : Type} (lookup : α → Except ε (List Nat))
    (refs : List α) :
    (resolve_tracks lookup refs).1.Nodup ∧
    (∀ x, x ∈ (resolve_tracks lookup refs).1 ↔
      ∃ r ∈ refs, ∃ ts, lookup r = Except.ok ts ∧ x ∈ ts) ∧
    (resolve_tracks lookup refs).1.toFinset.card = (resolve_tracks lookup refs).1.length ∧
    (resolve_tracks lookup (refs ++ refs)).1.toFinset =
      (resolve_tracks lookup refs).1.toFinset := by
  have hnd := resolveLoop_fst_nodup lookup refs [] [] List.nodup_nil
  refine ⟨hnd, ?_, List.toFinset_card_of_nodup hnd, ?_⟩
  · intro x
    have hx := resolveLoop_fst_mem lookup refs [] [] x
    simpa [resolve_tracks] using hx
  · ext a
    rw [List.mem_toFinset, List.mem_toFinset]
    have h2 := resolveLoop_fst_mem lookup (refs ++ refs) [] [] a
    have h1 := resolveLoop_fst_mem lookup refs [] [] a
    rw [resolve_tracks, h2, resolve_tracks, h1]
    simp [List.mem_append]

/-! ## Claim C8 -/

/-- C8: a lookup failure for one reference does not abort resolution — the
resolved id set equals the one obtained with the failing reference absent,
and the failing reference is recorded as a warning. -/
theorem claim8_lookup_failure_isolated {α ε : Type}
    (lookup : α → Except ε (List Nat)) (l1 l2 : List α) (r : α) (e : ε)
    (he : lookup r = Except.error e) :
    (resolve_tracks lookup (l1 ++ r :: l2)).1 =
      (resolve_tracks lookup (l1 ++ l2)).1 ∧
    r ∈ (resolve_tracks lookup (l1 ++ r :: l2)).2 :=
  resolveLoop_error_skip lookup r e he l1 l2 [] []

/-- C8 witness: reference 0 of the fixture lookup fails; the other
references' contributions are unchanged. -/
theorem claim8_lookup_failure_isolated_witness :
    ((resolve_tracks c8Lookup ([1] ++ 0 :: [2])).1 =
        (resolve_tracks c8Lookup ([1] ++ [2])).1 ∧
      0 ∈ (resolve_tracks c8Lookup ([1] ++ 0 :: [2])).2) :=
  claim8_lookup_failure_isolated c8Lookup [1] [2] 0 () rfl

/-! ## Resource locator lemmas -/

/-- Left bias of `Option.or`. -/
theorem option_some_or {α : Type} (a : α) (x : Option α) :
    (some a).or x = some a := rfl

/-- Neutrality of `none` for `Option.or`. -/
theorem option_none_or {α : Type} (x : Option α) : Option.or none x = x := by
  cases x <;> rfl

/-- Anchored literal matching succeeds exactly on lines that start with the
literal, returning the remainder. -/
theorem litMatch_eq_some (pre : List Char) :
    ∀ l rest, litMatch pre l = some rest ↔ l = pre ++ rest := by
  induction pre with
  | nil => intro l rest; simp [litMatch]
  | cons c cs ih =>
    intro l rest
    cases l with
    | nil => simp [litMatch]
    | cons x xs =>
      by_cases hx : x = c
      · subst hx
        simp [litMatch, ih]
      · simp [litMatch, hx]

/-- Matching a literal against itself plus a remainder. -/
theorem litMatch_self (pre rest : List Char) :
    litMatch pre (pre ++ rest) = some rest :=
  (litMatch_eq_some pre (pre ++ rest) rest).mpr rfl

/-- The end-anchored id capture succeeds exactly on valid 22-character
alphanumeric remainders, capturing them whole. -/
theorem matchTail_eq_some (l id : List Char) :
    matchTail l = some id ↔ id = l ∧ idOk l = true := by
  unfold matchTail
  by_cases h : idOk l = true
  · simp [h, eq_comm]
  · simp [h]

/-- The URL regex matches exactly the three anchored long-form shapes with a
valid id capture. -/
theorem url_capture_eq_some (k : ResourceKind) (line id : List Char) :
    url_capture k line = some id ↔
      idOk id = true ∧
        (line = urlCore k ++ id ∨ line = httpPre ++ urlCore k ++ id ∨
          line = httpsPre ++ urlCore k ++ id) := by
  constructor
  · intro h
    cases hS : litMatch httpsPre line with
    | some rest =>
      simp only [url_capture, hS] at h
      rcases Option.bind_eq_some.mp h with ⟨mid, h1, h2⟩
      rcases (matchTail_eq_some mid id).mp h2 with ⟨hid, hok⟩
      have hline := (litMatch_eq_some httpsPre line rest).mp hS
      have hrest := (litMatch_eq_some (urlCore k) rest mid).mp h1
      subst hid
      refine ⟨hok, Or.inr (Or.inr ?_)⟩
      rw [hline, hrest, List.append_assoc]
    | none =>
      cases hH : litMatch httpPre line with
      | some rest =>
        simp only [url_capture, hS, hH] at h
        rcases Option.bind_eq_some.mp h with ⟨mid, h1, h2⟩
        rcases (matchTail_eq_some mid id).mp h2 with ⟨hid, hok⟩
        have hline := (litMatch_eq_some httpPre line rest).mp hH
        have hrest := (litMatch_eq_some (urlCore k) rest mid).mp h1
        subst hid
        refine ⟨hok, Or.inr (Or.inl ?_)⟩
        rw [hline, hrest, List.append_assoc]
      | none =>
        simp only [url_capture, hS, hH] at h
        rcases Option.bind_eq_some.mp h with ⟨mid, h1, h2⟩
        rcases (matchTail_eq_some mid id).mp h2 with ⟨hid, hok⟩
        have hline := (litMatch_eq_some (urlCore k) line mid).mp h1
        subst hid
        exact ⟨hok, Or.inl hline⟩
  · rintro ⟨hok, hdisj | hdisj | hdisj⟩ <;> subst hdisj
    · have h1 : litMatch httpsPre (urlCore k ++ id) = none := rfl
      have h2 : litMatch httpPre (urlCore k ++ id) = none := rfl
      simp only [url_capture, h1, h2, litMatch_self, Option.some_bind]
      simp [matchTail, hok]
    · rw [List.append_assoc]
      have h1 : litMatch httpsPre (httpPre ++ (urlCore k ++ id)) = none := rfl
      simp only [url_capture, h1, litMatch_self, Option.some_bind]
      simp [matchTail, hok]
    · rw [List.append_assoc]
      simp only [url_capture, litMatch_self, Option.some_bind]
      simp [matchTail, hok]

/-- The URI regex matches exactly the anchored short form with a valid id
capture. -/
theorem uri_capture_eq_some (k : ResourceKind) (line id : List Char) :
    uri_capture k line = some id ↔
      idOk id = true ∧ line = uriCore k ++ id := by
  constructor
  · intro h
    rcases Option.bind_eq_some.mp h with ⟨mid, h1, h2⟩
    rcases (matchTail_eq_some mid id).mp h2 with ⟨hid, hok⟩
    have hline := (litMatch_eq_some (uriCore k) line mid).mp h1
    subst hid
    exact ⟨hok, hline⟩
  · rintro ⟨hok, hline⟩
    subst hline
    simp only [uri_capture, litMatch_self, Option.some_bind]
    simp [matchTail, hok]

/-- The capture step of `is_resource` succeeds exactly when the line matches
the kind's grammar, capturing the id. -/
theorem is_resource_capture_eq_some (line : List Char) (k : ResourceKind)
    (id : List Char) :
    is_resource_capture line k = some id ↔ grammarMatch k line id := by
  constructor
  · intro h
    cases hu : url_capture k line with
    | some v =>
      rw [is_resource_capture, hu, option_some_or] at h
      have hv : id = v := (Option.some.inj h).symm
      subst hv
      rcases (url_capture_eq_some k line id).mp hu with ⟨hok, h1 | h2 | h3⟩
      · exact ⟨hok, Or.inl h1⟩
      · exact ⟨hok, Or.inr (Or.inl h2)⟩
      · exact ⟨hok, Or.inr (Or.inr (Or.inl h3))⟩
    | none =>
      rw [is_resource_capture, hu, option_none_or] at h
      rcases (uri_capture_eq_some k line id).mp h with ⟨hok, hline⟩
      exact ⟨hok, Or.inr (Or.inr (Or.inr hline))⟩
  · rintro ⟨hok, h1 | h2 | h3 | h4⟩
    · have hu : url_capture k line = some id :=
        (url_capture_eq_some k line id).mpr ⟨hok, Or.inl h1⟩
      rw [is_resource_capture, hu, option_some_or]
    · have hu : url_capture k line = some id :=
        (url_capture_eq_some k line id).mpr ⟨hok, Or.inr (Or.inl h2)⟩
      rw [is_resource_capture, hu, option_some_or]
    · have hu : url_capture k line = some id :=
        (url_capture_eq_some k line id).mpr ⟨hok, Or.inr (Or.inr h3)⟩
      rw [is_resource_capture, hu, option_some_or]
    · subst h4
      have hu : url_capture k (uriCore k ++ id) = none := rfl
      have hr : uri_capture k (uriCore k ++ id) = some id :=
        (uri_capture_eq_some k (uriCore k ++ id) id).mpr ⟨hok, rfl⟩
      rw [is_resource_capture, hu, option_none_or, hr]

/-- A kind's grammar fails on a line exactly when the capture step fails. -/
theorem is_resource_capture_eq_none (line : List Char) (k : ResourceKind) :
    is_resource_capture line k = none ↔ ∀ id, ¬ grammarMatch k line id := by
  constructor
  · intro h id hg
    rw [← is_resource_capture_eq_some] at hg
    rw [h] at hg
    cases hg
  · intro h
    cases hc : is_resource_capture line k with
    | none => rfl
    | some v => exact absurd ((is_resource_capture_eq_some line k v).mp hc) (h v)

/-! ## Claim C7 -/

/-- C7: `get_resource_from_line` returns a typed reference exactly when the
line matches, anchored end to end, one of the two grammars of some kind
with a 22-character alphanumeric id — the kinds tested in the order Track,
Album, Playlist, Artist, first match winning — and every non-matching line
fails with the original line. -/
theorem claim7_locate_grammar (line : List Char) :
    (∀ k id, is_resource_capture line k = some id ↔ grammarMatch k line id) ∧
    (∀ r, get_resource_from_line line = Except.ok r →
      grammarMatch r.kind line r.id ∧
        ∀ k, kindOrder k < kindOrder r.kind → ∀ id, ¬ grammarMatch k line id) ∧
    ((∀ k id, ¬ grammarMatch k line id) ↔
      get_resource_from_line line = Except.error line) := by
  refine ⟨fun k id => is_resource_capture_eq_some line k id, ?_, ?_⟩
  · intro r h
    cases hT : is_resource_capture line ResourceKind.Track with
    | some id =>
      simp only [get_resource_from_line, hT] at h
      have hr : r = ⟨ResourceKind.Track, id⟩ := (Except.ok.inj h).symm
      subst hr
      refine ⟨(is_resource_capture_eq_some line ResourceKind.Track id).mp hT, ?_⟩
      intro k hk
      exact absurd hk (Nat.not_lt_zero _)
    | none =>
      cases hA : is_resource_capture line ResourceKind.Album with
      | some id =>
        simp only [get_resource_from_line, hT, hA] at h
        have hr : r = ⟨ResourceKind.Album, id⟩ := (Except.ok.inj h).symm
        subst hr
        refine ⟨(is_resource_capture_eq_some line ResourceKind.Album id).mp hA, ?_⟩
        intro k hk id2 hg
        cases k with
        | Track => exact (is_resource_capture_eq_none line ResourceKind.Track).mp hT id2 hg
        | Album => simp [kindOrder] at hk
        | Playlist => simp [kindOrder] at hk
        | Artist => simp [kindOrder] at hk
      | none =>
        cases hP : is_resource_capture line ResourceKind.Playlist with
        | some id =>
          simp only [get_resource_from_line, hT, hA, hP] at h
          have hr : r = ⟨ResourceKind.Playlist, id⟩ := (Except.ok.inj h).symm
          subst hr
          refine ⟨(is_resource_capture_eq_some line ResourceKind.Playlist id).mp hP, ?_⟩
          intro k hk id2 hg
          cases k with
          | Track => exact (is_resource_capture_eq_none line ResourceKind.Track).mp hT id2 hg
          | Album => exact (is_resource_capture_eq_none line ResourceKind.Album).mp hA id2 hg
          | Playlist => simp [kindOrder] at hk
          | Artist => simp [kindOrder] at hk
        | none =>
          cases hR : is_resource_capture line ResourceKind.Artist with
          | some id =>
            simp only [get_resource_from_line, hT, hA, hP, hR] at h
            have hr : r = ⟨ResourceKind.Artist, id⟩ := (Except.ok.inj h).symm
            subst hr
            refine ⟨(is_resource_capture_eq_some line ResourceKind.Artist id).mp hR, ?_⟩
            intro k hk id2 hg
            cases k with
            | Track => exact (is_resource_capture_eq_none line ResourceKind.Track).mp hT id2 hg
            | Album => exact (is_resource_capture_eq_none line ResourceKind.Album).mp hA id2 hg
            | Playlist =>
              exact (is_resource_capture_eq_none line ResourceKind.Playlist).mp hP id2 hg
            | Artist => simp [kindOrder] at hk
          | none =>
            simp only [get_resource_from_line, hT, hA, hP, hR] at h
            exact Except.noConfusion h
  · constructor
    · intro hng
      have hT := (is_resource_capture_eq_none line ResourceKind.Track).mpr (hng ResourceKind.Track)
      have hA := (is_resource_capture_eq_none line ResourceKind.Album).mpr (hng ResourceKind.Album)
      have hP :=
        (is_resource_capture_eq_none line ResourceKind.Playlist).mpr (hng ResourceKind.Playlist)
      have hR := (is_resource_capture_eq_none line ResourceKind.Artist).mpr (hng ResourceKind.Artist)
      simp only [get_resource_from_line, hT, hA, hP, hR]
    · intro h k id hg
      have hc : is_resource_capture line k = some id :=
        (is_resource_capture_eq_some line k id).mpr hg
      cases hT : is_resource_capture line ResourceKind.Track with
      | some v =>
        simp only [get_resource_from_line, hT] at h
        exact Except.noConfusion h
      | none =>
        cases hA : is_resource_capture line ResourceKind.Album with
        | some v =>
          simp only [get_resource_from_line, hT, hA] at h
          exact Except.noConfusion h
        | none =>
          cases hP : is_resource_capture line ResourceKind.Playlist with
          | some v =>
            simp only [get_resource_from_line, hT, hA, hP] at h
            exact Except.noConfusion h
          | none =>
            cases hR : is_resource_capture line ResourceKind.Artist with
            | some v =>
              simp only [get_resource_from_line, hT, hA, hP, hR] at h
              exact Except.noConfusion h
            | none =>
              cases k with
              | Track =>
                rw [hc] at hT
                exact Option.noConfusion hT
              | Album =>
                rw [hc] at hA
                exact Option.noConfusion hA
              | Playlist =>
                rw [hc] at hP
                exact Option.noConfusion hP
              | Artist =>
                rw [hc] at hR
                exact Option.noConfusion hR

/-! ## Claim C10 -/

/-- Base-62 digits exist exactly for the ASCII alphanumeric characters: the
grammar's character class is the decoder's alphabet. -/
theorem base62Digit_isSome_iff (c : Char) :
    c.isAlphanum = true ↔ (base62Digit c).isSome = true := by
  unfold base62Digit
  by_cases hd : c.isDigit = true
  · simp [Char.isAlphanum, hd]
  · by_cases hl : c.isLower = true
    · simp [Char.isAlphanum, Char.isAlpha, hd, hl]
    · by_cases hu : c.isUpper = true
      · simp [Char.isAlphanum, Char.isAlpha, hd, hl, hu]
      · simp [Char.isAlphanum, Char.isAlpha, hd, hl, hu]

/-- The base-62 accumulation of `from_base62` succeeds from any start value
on an all-alphanumeric string. -/
theorem from_base62_foldl_isSome (s : List Char) :
    (∀ c ∈ s, c.isAlphanum = true) → ∀ v : Nat,
      ((s.foldl (fun acc c => acc.bind fun w => (base62Digit c).map fun d => w * 62 + d)
          (some v)).isSome) = true := by
  induction s with
  | nil => intro _ v; rfl
  | cons c rest ih =>
    intro h v
    have hc : (base62Digit c).isSome = true :=
      (base62Digit_isSome_iff c).mp (h c (List.mem_cons_self c rest))
    rcases Option.isSome_iff_exists.mp hc with ⟨d, hd⟩
    simp only [List.foldl_cons, hd, Option.some_bind, Option.map_some]
    exact ih (fun q hq => h q (List.mem_cons_of_mem c hq)) (v * 62 + d)

/-- C10: a captured id is 22 alphanumeric characters, and every
alphanumeric string decodes in base 62, so the decode `unwrap` of
`is_resource` cannot panic: `is_resource` returns the decoded id, and the
grammar's character class `[A-Za-z0-9]` is exactly the base-62 alphabet. -/
theorem claim10_captured_id_decodes (line : List Char) (k : ResourceKind)
    (id : List Char) (h : is_resource_capture line k = some id) :
    (from_base62 id).isSome = true ∧
    is_resource line k = some (from_base62 id) ∧
    ∀ c, c.isAlphanum = true ↔ (base62Digit c).isSome = true := by
  have hg := (is_resource_capture_eq_some line k id).mp h
  have hok : idOk id = true := hg.1
  have hall : ∀ c ∈ id, c.isAlphanum = true := by
    have h2 := (Bool.and_eq_true _ _).mp hok
    intro c hc
    exact List.all_eq_true.mp h2.2 c hc
  refine ⟨from_base62_foldl_isSome id hall 0, ?_, base62Digit_isSome_iff⟩
  simp [is_resource, h]

/-- C10 witness: the decode theorem applied to the fixture line
`spotify:track:` followed by 22 repetitions of `a`. -/
theorem claim10_captured_id_decodes_witness :
    (from_base62 c10Id).isSome = true :=
  (claim10_captured_id_decodes c10Line ResourceKind.Track c10Id rfl).1

end Rippify
